import Mathlib

/-!
Shallow embedding of the transaction-injection ("migration") tool: the
recursive call resolver `createCall` and the migration sequencer `migrate`
(file `src/unnamed/part_000`).  The network client, identity provider and
file system are external collaborators; they are represented by an
environment of queried values (`Env`) and by an event trace recording the
externally visible actions of a run (`Event`).
-/

namespace Injection

/-! ## Call descriptors (the recorded `{callIndex, args}` shape) -/

/-- A recorded call descriptor `{ callIndex, args }`.  The `args` object is
represented by its named scalar fields (`scalars`, holding the defined,
truthy JS values the code reads: `keys`, `items`, `controller`, `dest`,
`code`, ...), an optional nested descriptor field `call`, and an optional
list-of-descriptors field `calls`.  A field absent from the JS object is
`none` here. -/
inductive CallDetails : Type where
  | mk (callIndex : String) (scalars : List (String × String))
       (call : Option CallDetails) (calls : Option (List CallDetails))

def CallDetails.callIndex : CallDetails → String
  | .mk ci _ _ _ => ci

def CallDetails.scalars : CallDetails → List (String × String)
  | .mk _ sc _ _ => sc

def CallDetails.call : CallDetails → Option CallDetails
  | .mk _ _ c _ => c

def CallDetails.calls : CallDetails → Option (List CallDetails)
  | .mk _ _ _ cs => cs

/-- Reading a named field of the `args` object; `none` models JS `undefined`. -/
def getScalar (scalars : List (String × String)) (k : String) : Option String :=
  (scalars.find? (fun p => p.1 == k)).map (fun p => p.2)

/-- Models `api.registry.findMetaCall(hexToU8a(callIndex))`: the network client's
registry, mapping a binary call index to its `(section, method)` name. -/
abbrev Registry := String → String × String

/-- A positional argument of a top-level recorded transaction
(`extrinsic.args[i]`): an opaque scalar, a nested call descriptor, or an
array of call descriptors. -/
inductive ExtArg : Type where
  | prim (v : String)
  | details (d : CallDetails)
  | detailsList (ds : List CallDetails)

mutual

/-- A concrete, submittable call: `api.tx[section][method](...)`.  `sect`
stands for the source's `section` (a Lean keyword). -/
inductive Call : Type where
  | mk (sect : String) (method : String) (args : List TxArg)

/-- An argument handed to `api.tx[section][method]`: a (possibly
`undefined`) scalar read off the descriptor's `args`, a raw top-level
argument passed through unresolved, a resolved nested call, or an array of
resolved calls. -/
inductive TxArg : Type where
  | scalar (v : Option String)
  | raw (a : ExtArg)
  | call (c : Call)
  | callList (cs : List Call)

end

/-- Errors a run can abort with, mirroring the `throw new Error(...)` sites
and the JS `TypeError`s raised by accessing fields of `undefined`. -/
inductive MigrateError : Type where
  /-- Thrown as `Missing a block: ${count} GOT: ${blocks[count].number}`. -/
  | gapError (missing : Nat) (got : Int)
  /-- Thrown as `NOT SUDO SIGNER.. GOT ${signer} EXPECTED ${sudo}`. -/
  | authError (got : String) (expected : String)
  /-- Thrown as `Method missing to check : ${section} ${method}`. -/
  | unknownCall (sect : String) (method : String)
  /-- a JS `TypeError` from destructuring / calling a method on `undefined` -/
  | typeError

/-- The ways `createCall` itself can fail: its own `throw new Error(...)`
`default:` branch, or a JS `TypeError` from recursing into an absent nested
descriptor. -/
inductive ResolveError : Type where
  | unknownCall (sect : String) (method : String)
  | typeError

/-- A resolver failure surfaces out of `migrate` unchanged; this maps it
into the run-level error type. -/
def ResolveError.toMigrateError : ResolveError → MigrateError
  | .unknownCall s m => .unknownCall s m
  | .typeError => .typeError

/-! ## The call resolver `createCall` -/

/-- One dispatch step of `createCall`: the `switch (method)` over the name
resolved from the binary call index.  The recursive resolutions of the
nested `args.call` and `args.calls` fields are passed in as `nestedCall` /
`nestedCalls` (`none` when the field is absent from `args`); resolution is
pure and total and the dispatch consults these only in the `proxy`, `sudo`
and `batch` arms, so this is observationally the source's in-branch
recursion. -/
def createCallDispatch (sect method : String) (scalars : List (String × String))
    (nestedCall : Option (Except ResolveError Call))
    (nestedCalls : Option (Except ResolveError (List Call))) : Except ResolveError Call :=
  if method = "killStorage" then
    .ok (.mk sect method [.scalar (getScalar scalars "keys")])
  else if method = "setStorage" then
    .ok (.mk sect method [.scalar (getScalar scalars "items")])
  else if method = "bond" then
    .ok (.mk sect method [.scalar (getScalar scalars "controller"),
      .scalar (getScalar scalars "value"), .scalar (getScalar scalars "payee")])
  else if method = "nominate" then
    .ok (.mk sect method [.scalar (getScalar scalars "targets")])
  else if method = "setController" then
    .ok (.mk sect method [.scalar (getScalar scalars "controller")])
  else if method = "setKeys" then
    .ok (.mk sect method [.scalar (getScalar scalars "keys"),
      .scalar (getScalar scalars "proof")])
  else if method = "validate" then
    .ok (.mk sect method [.scalar (getScalar scalars "prefs")])
  else if method = "forceTransfer" then
    .ok (.mk sect method [.scalar (getScalar scalars "source"),
      .scalar (getScalar scalars "dest"), .scalar (getScalar scalars "value")])
  else if method = "transfer" then
    .ok (.mk sect method [.scalar (getScalar scalars "dest"),
      .scalar (getScalar scalars "value")])
  else if method = "proxy" then
    match nestedCall with
    | some r => r.map (fun c =>
        .mk sect method [.scalar (getScalar scalars "real"),
          .scalar (getScalar scalars "force_proxy_type"), .call c])
    | none => .error .typeError
  else if method = "sudo" then
    match nestedCall with
    | some r => r.map (fun c => .mk sect method [.call c])
    | none => .error .typeError
  else if method = "batch" then
    match nestedCalls with
    | some r => r.map (fun cs => .mk sect method [.callList cs])
    | none => .error .typeError
  else if method = "anonymous" then
    .ok (.mk sect method [.scalar (getScalar scalars "proxy_type"),
      .scalar (getScalar scalars "index")])
  else
    .error (.unknownCall sect method)

mutual

/-- Models `createCall(api, details)`: resolve the method name from the binary
call index via the registry, recursively resolve the nested descriptor
fields, and dispatch.  An unrecognized method is the source's `default:`
branch, `throw new Error(...)`. -/
def createCall (reg : Registry) (d : CallDetails) : Except ResolveError Call :=
  match d with
  | .mk callIndex scalars call calls =>
    createCallDispatch (reg callIndex).1 (reg callIndex).2 scalars
      (match call with
       | some nested => some (createCall reg nested)
       | none => none)
      (match calls with
       | some ds => some (createCalls reg ds)
       | none => none)

/-- Models `args.calls.map((call) => createCall(api, call))`, with the first
resolution error propagated (a JS `throw` inside `map` aborts the map). -/
def createCalls (reg : Registry) (ds : List CallDetails) : Except ResolveError (List Call) :=
  match ds with
  | [] => .ok []
  | d :: rest => do
    let c ← createCall reg d
    let cs ← createCalls reg rest
    .ok (c :: cs)

end

/-- The method names `createCall` has an argument-extraction rule for (the
`case` labels of its `switch`). -/
def supportedMethods : List String :=
  ["killStorage", "setStorage", "bond", "nominate", "setController", "setKeys",
   "validate", "forceTransfer", "transfer", "proxy", "sudo", "batch", "anonymous"]

/-! ## Blocks, extrinsics and the sequencer's surroundings -/

/-- The `{ signer }` object destructured from `extrinsic.signature`. -/
structure Signature : Type where
  signer : String

/-- A recorded transaction: `{ args, hash, method, signature }`. -/
structure Extrinsic : Type where
  method : String
  args : List ExtArg
  hash : String
  signature : Option Signature

/-- One line of the database file: `{ number, extrinsics }`. -/
structure Block : Type where
  number : Int
  extrinsics : List Extrinsic

/-- The CLI options `migrate` receives (the path / secret / endpoint fields
only feed the collaborators, which are abstracted into `Env`). -/
structure Options : Type where
  dry : Bool
  ensureComplete : Bool
  trickle : Bool

/-- The values obtained from the external collaborators: the registry of
call names, the signer derived from the secret, the chain's sudo key, the
signer's starting account nonce, and the `IgnoreMethods` constant. -/
structure Env : Type where
  registry : Registry
  signerAddress : String
  sudoKey : String
  startingNonce : Nat
  ignoreMethods : List String

/-- Externally visible actions of a run, in order. -/
inductive Event : Type where
  /-- Logged as `Skipping ignore method: ${method}`. -/
  | skippedIgnored (method : String)
  /-- Logged as `Skipping runtime upgrade.`. -/
  | skippedUpgrade
  /-- The unsigned `claimAttest` path, `api.tx[module][txType](...args).send(...)`. -/
  | submittedUnsigned (moduleName : String) (txType : String) (args : List ExtArg)
  /-- Logged as `Stubbing unsigned transaction.`. -/
  | stubbedUnsigned
  /-- the proposal built by the signed path's `switch` -/
  | constructed (proposal : Call)
  /-- The call `api.tx.sudo.sudoAs(signer, proposal).signAndSend(mySigner, callback)`.
  `loggedNonce` is the `currentNonce` printed in `nonceStr`; `explicitNonce`
  is the nonce option passed to `signAndSend` — the source passes no options
  object, hence `none`. -/
  | submittedSigned (origSigner : String) (proposal : Call)
      (loggedNonce : Nat) (explicitNonce : Option Nat)
  /-- The `await sleep(6000)` at the end of a block. -/
  | sleptBlockTime

/-- The sequencer's mutable locals: `index` (the signed-transaction
counter), `wait` (the trickle flag), plus the accumulated event trace. -/
structure MState : Type where
  index : Nat
  wait : Bool
  events : List Event

/-- A run either completes with its trace, or aborts with the trace emitted
up to the fatal error together with that error. -/
abbrev MigrateM := Except (List Event × MigrateError)

/-! ## Small helpers mirroring dynamic JS operations -/

def takeToDot : List Char → List Char
  | [] => []
  | c :: cs => if c = '.' then [] else c :: takeToDot cs

def dropToDot : List Char → Option (List Char)
  | [] => none
  | c :: cs => if c = '.' then some cs else dropToDot cs

/-- Models `const [module, txType] = method.split('.')`.  A method with no dot
leaves `txType` undefined in JS; it is modelled as `""`, which matches no
`case` label, exactly as `undefined` would. -/
def splitDot (s : String) : String × String :=
  match dropToDot s.data with
  | none => (String.mk (takeToDot s.data), "")
  | some rest => (String.mk (takeToDot s.data), String.mk (takeToDot rest))

/-- Truthiness of `details.args.code` (for recorded runtime upgrades the
field is a non-empty hex blob, hence truthy iff present). -/
def hasCode (d : CallDetails) : Bool :=
  (getScalar d.scalars "code").isSome

/-- The check `args[0].args.code` evaluated on the raw argument list: reading `.args`
of a non-descriptor yields `undefined` and `.code` of `undefined` throws a
`TypeError`. -/
def upgradeCheck (args : List ExtArg) : Except MigrateError Bool :=
  match args.head? with
  | some (.details d) => .ok (hasCode d)
  | some _ => .error .typeError
  | none => .error .typeError

/-- An `args[i]` passed through raw; an out-of-range index is `undefined`. -/
def rawAt (args : List ExtArg) (i : Nat) : TxArg :=
  match args.get? i with
  | some a => .raw a
  | none => .scalar none

/-! ## The signed path's proposal construction (the `switch (txType)` inside `migrate`) -/

/-- The `switch (txType)` of `migrate`'s signed path: rebuild the proposal,
resolving nested descriptors via `createCall` for `batch`, `sudo`,
`sudoUncheckedWeight` and `asMulti`, and passing the raw arguments through
for every other method. -/
def constructProposal (reg : Registry) (moduleName : String) (txType : String)
    (args : List ExtArg) : Except MigrateError Call :=
  if txType = "batch" then
    match args.head? with
    | some (.detailsList ds) =>
      ((createCalls reg ds).map (fun cs =>
        Call.mk moduleName txType [.callList cs])).mapError ResolveError.toMigrateError
    | _ => .error .typeError
  else if txType = "sudo" then
    match args.head? with
    | some (.details d) =>
      ((createCall reg d).map (fun c =>
        Call.mk moduleName txType [.call c])).mapError ResolveError.toMigrateError
    | _ => .error .typeError
  else if txType = "sudoUncheckedWeight" then
    match args.head? with
    | some (.details d) =>
      ((createCall reg d).map (fun c =>
        Call.mk moduleName txType [.call c, rawAt args 1])).mapError ResolveError.toMigrateError
    | _ => .error .typeError
  else if txType = "asMulti" then
    match args.get? 3 with
    | some (.details d) =>
      ((createCall reg d).map (fun c =>
        Call.mk moduleName txType [rawAt args 0, rawAt args 1, rawAt args 2,
          .call c])).mapError ResolveError.toMigrateError
    | _ => .error .typeError
  else
    .ok (Call.mk moduleName txType (args.map TxArg.raw))

/-! ## The sequencer -/

/-- The body of `migrate`'s inner `for (const extrinsic of extrinsics)`
loop: ignore-list skip, runtime-upgrade skip, the unsigned `claimAttest`
path, and the signed construct-and-submit path. -/
def processExtrinsic (env : Env) (opts : Options) (s : MState) (e : Extrinsic) :
    MigrateM MState :=
  if env.ignoreMethods.contains e.method then
    .ok { s with events := s.events ++ [.skippedIgnored e.method] }
  else if (splitDot e.method).2 = "sudoUncheckedWeight" then
    match upgradeCheck e.args with
    | .error err => .error (s.events, err)
    | .ok true => .ok { s with events := s.events ++ [.skippedUpgrade] }
    | .ok false => processSigned env opts s e (splitDot e.method).1 (splitDot e.method).2
  else if (splitDot e.method).2 = "claimAttest" then
    if opts.dry = false then
      .ok { s with
        wait := if opts.trickle then true else s.wait,
        events := s.events ++
          [.submittedUnsigned (splitDot e.method).1 (splitDot e.method).2 e.args] }
    else
      .ok { s with events := s.events ++ [.stubbedUnsigned] }
  else
    processSigned env opts s e (splitDot e.method).1 (splitDot e.method).2
where
  /-- The `else` branch (lines 159–203): destructure `signature`, construct
  the proposal, submit it wrapped in `sudo.sudoAs` unless dry (the
  `currentNonce = startingNonce + index` of the log line is the nonce
  recorded on the submission event), and increment `index`. -/
  processSigned (env : Env) (opts : Options) (s : MState) (e : Extrinsic)
      (moduleName txType : String) : MigrateM MState :=
    match e.signature with
    | none => .error (s.events, .typeError)
    | some sig =>
      match constructProposal env.registry moduleName txType e.args with
      | .error err => .error (s.events, err)
      | .ok proposal =>
        if opts.dry = false then
          .ok { index := s.index + 1,
                wait := if opts.trickle then true else s.wait,
                events := s.events ++ [.constructed proposal,
                  .submittedSigned sig.signer proposal (env.startingNonce + s.index) none] }
        else
          .ok { index := s.index + 1,
                wait := s.wait,
                events := s.events ++ [.constructed proposal] }

/-- One iteration of the outer `for (const block of blocks)` loop: process
the extrinsics in order, then `if (wait) await sleep(6000)`. -/
def processBlock (env : Env) (opts : Options) (s : MState) (b : Block) :
    MigrateM MState := do
  let s₁ ← b.extrinsics.foldlM (processExtrinsic env opts) s
  if s₁.wait then
    pure { s₁ with events := s₁.events ++ [.sleptBlockTime] }
  else
    pure s₁

/-- Stable ascending insertion by block `number`, modelling the JS
`sort((a, b) => a.number - b.number)`. -/
def insertBlock (b : Block) : List Block → List Block
  | [] => [b]
  | x :: xs => if x.number ≤ b.number then x :: insertBlock b xs else b :: x :: xs

def sortBlocks (bs : List Block) : List Block :=
  bs.foldl (fun acc b => insertBlock b acc) []

/-- The `while (count < blocks.length)` completeness loop: each iteration
compares `blocks[count-1].number` with `count` and on mismatch throws
citing `count` as missing and `blocks[count].number` as `GOT`.  `fuel`
bounds the iterations purely to make the recursion structural; the caller
passes `blocks.length`, which the loop (incrementing `count` each step) can
never exhaust before `count < blocks.length` fails. -/
def completenessLoop (blocks : List Block) : Nat → Nat → Except MigrateError Unit
  | _, 0 => .ok ()
  | count, fuel + 1 =>
    if h : count < blocks.length then
      if (blocks.get ⟨count - 1, Nat.lt_of_le_of_lt (Nat.sub_le count 1) h⟩).number ≠ (count : Int) then
        .error (.gapError count (blocks.get ⟨count, h⟩).number)
      else
        completenessLoop blocks (count + 1) fuel
    else
      .ok ()

/-- The `if (ensureComplete)` validation over the sorted blocks. -/
def completenessCheck (blocks : List Block) : Except MigrateError Unit :=
  completenessLoop blocks 1 blocks.length

/-- The whole `migrate` run: sort the parsed blocks, run the completeness
validation when enabled, apply the sudo-signer authorization gate unless
dry, then iterate the blocks.  The result is the event trace; an abort
carries the trace emitted before the fatal error. -/
def migrate (env : Env) (opts : Options) (blocks₀ : List Block) :
    MigrateM (List Event) := do
  let blocks := sortBlocks blocks₀
  if opts.ensureComplete then
    match completenessCheck blocks with
    | .error err => throw ([], err)
    | .ok () => pure ()
  if opts.dry = false ∧ env.signerAddress ≠ env.sudoKey then
    throw ([], .authError env.signerAddress env.sudoKey)
  let s ← blocks.foldlM (processBlock env opts) ⟨0, false, []⟩
  pure s.events

/-! ## Observations on runs -/

/-- The events a run emitted, whether it completed or aborted. -/
def runEvents : MigrateM (List Event) → List Event
  | .ok evs => evs
  | .error (evs, _) => evs

/-- Whether an event is a network submission (signed or unsigned). -/
def isSubmission : Event → Bool
  | .submittedUnsigned _ _ _ => true
  | .submittedSigned _ _ _ _ => true
  | _ => false

/-- Whether an event is a signed-path proposal construction. -/
def isConstructed : Event → Bool
  | .constructed _ => true
  | _ => false

/-- The `loggedNonce` values of the signed submissions, in trace order. -/
def signedNonceLog : List Event → List Nat
  | [] => []
  | .submittedSigned _ _ n _ :: evs => n :: signedNonceLog evs
  | _ :: evs => signedNonceLog evs

/-- Whether a run aborted with the authorization error. -/
def isAuthErrorResult : MigrateM (List Event) → Bool
  | .error (_, .authError _ _) => true
  | _ => false

/-- Whether every signed submission of a trace passed an explicit nonce to
the submission call. -/
def submissionsUseExplicitNonce (evs : List Event) : Bool :=
  evs.all (fun ev =>
    match ev with
    | .submittedSigned _ _ _ explicitNonce => explicitNonce.isSome
    | _ => true)

/-! ## A fuel-indexed resolver for the termination claim -/

/-- The dispatch `createCallDispatch` lifted to fuel-indexed nested results: the outer
`Option` of `nestedCall` / `nestedCalls` is field presence, the inner one
is fuel exhaustion of the nested resolution (`none` = diverged). -/
def createCallDispatchF (sect method : String) (scalars : List (String × String))
    (nestedCall : Option (Option (Except ResolveError Call)))
    (nestedCalls : Option (Option (Except ResolveError (List Call)))) :
    Option (Except ResolveError Call) :=
  if method = "killStorage" then
    some (.ok (.mk sect method [.scalar (getScalar scalars "keys")]))
  else if method = "setStorage" then
    some (.ok (.mk sect method [.scalar (getScalar scalars "items")]))
  else if method = "bond" then
    some (.ok (.mk sect method [.scalar (getScalar scalars "controller"),
      .scalar (getScalar scalars "value"), .scalar (getScalar scalars "payee")]))
  else if method = "nominate" then
    some (.ok (.mk sect method [.scalar (getScalar scalars "targets")]))
  else if method = "setController" then
    some (.ok (.mk sect method [.scalar (getScalar scalars "controller")]))
  else if method = "setKeys" then
    some (.ok (.mk sect method [.scalar (getScalar scalars "keys"),
      .scalar (getScalar scalars "proof")]))
  else if method = "validate" then
    some (.ok (.mk sect method [.scalar (getScalar scalars "prefs")]))
  else if method = "forceTransfer" then
    some (.ok (.mk sect method [.scalar (getScalar scalars "source"),
      .scalar (getScalar scalars "dest"), .scalar (getScalar scalars "value")]))
  else if method = "transfer" then
    some (.ok (.mk sect method [.scalar (getScalar scalars "dest"),
      .scalar (getScalar scalars "value")]))
  else if method = "proxy" then
    match nestedCall with
    | some (some r) => some (r.map (fun c =>
        .mk sect method [.scalar (getScalar scalars "real"),
          .scalar (getScalar scalars "force_proxy_type"), .call c]))
    | some none => none
    | none => some (.error .typeError)
  else if method = "sudo" then
    match nestedCall with
    | some (some r) => some (r.map (fun c => .mk sect method [.call c]))
    | some none => none
    | none => some (.error .typeError)
  else if method = "batch" then
    match nestedCalls with
    | some (some r) => some (r.map (fun cs => .mk sect method [.callList cs]))
    | some none => none
    | none => some (.error .typeError)
  else if method = "anonymous" then
    some (.ok (.mk sect method [.scalar (getScalar scalars "proxy_type"),
      .scalar (getScalar scalars "index")]))
  else
    some (.error (.unknownCall sect method))

mutual

/-- Models `createCall` with the recursion made explicit through a fuel bound:
`none` marks fuel exhaustion (the only way the unguarded source recursion
could fail to produce an answer). -/
def createCallF (reg : Registry) : Nat → CallDetails → Option (Except ResolveError Call)
  | 0, _ => none
  | fuel + 1, .mk callIndex scalars call calls =>
    createCallDispatchF (reg callIndex).1 (reg callIndex).2 scalars
      (match call with
       | some nested => some (createCallF reg fuel nested)
       | none => none)
      (match calls with
       | some ds => some (createCallsF reg fuel ds)
       | none => none)

/-- Fuel-indexed counterpart of `createCalls`. -/
def createCallsF (reg : Registry) (fuel : Nat) :
    List CallDetails → Option (Except ResolveError (List Call))
  | [] => some (.ok [])
  | d :: rest =>
    match createCallF reg fuel d with
    | none => none
    | some (.error e) => some (.error e)
    | some (.ok c) =>
      match createCallsF reg fuel rest with
      | none => none
      | some (.error e) => some (.error e)
      | some (.ok cs) => some (.ok (c :: cs))

end

/-- Whether an event is the end-of-block sleep. -/
def isSlept : Event → Bool
  | .sleptBlockTime => true
  | _ => false

/-- The consecutive nonces `[a, a+1, ..., a+n-1]`. -/
def nonceRange (a n : Nat) : List Nat :=
  (List.range n).map (fun i => a + i)

/-! ## The per-step specification of the sequencer loop -/

/-- What one step (an extrinsic, or a whole block) of the sequencer does to
its state: it appends events; the trickle flag is set exactly by submissions
in live (non-dry) trickle mode and is otherwise carried over unchanged (it
is never cleared); the signed-transaction counter only grows; dry steps
submit nothing; and in live mode the logged nonces of the step's signed
submissions are exactly the consecutive values the counter walked through. -/
def StepSpec (env : Env) (opts : Options) (s s' : MState) (new : List Event) : Prop :=
  s'.events = s.events ++ new ∧
  s'.wait = (s.wait || (opts.trickle && !opts.dry && new.any isSubmission)) ∧
  s.index ≤ s'.index ∧
  (opts.dry = true → new.any isSubmission = false) ∧
  (opts.dry = false →
    signedNonceLog new = nonceRange (env.startingNonce + s.index) (s'.index - s.index))

/-- The dry-run simulation relation: same signed-transaction counter and
the same constructed proposals, in the same order. -/
def DrySim (sd sw : MState) : Prop :=
  sd.index = sw.index ∧
  sd.events.filter isConstructed = sw.events.filter isConstructed

/-- The pacing property claimed of a block: the block-time delay is taken
after the block exactly when a submission occurred among that block's own
extrinsics. -/
def delayIffSubmissionThisBlock (env : Env) (opts : Options) (s : MState)
    (b : Block) : Prop :=
  ∀ s', processBlock env opts s b = Except.ok s' →
    (s'.events.drop s.events.length).any isSlept =
      (s'.events.drop s.events.length).any isSubmission

/-! ## Concrete fixtures used to instantiate the theorems -/

/-- A small registry for the fixtures. -/
def regT : Registry := fun ci =>
  if ci = "0x1802" then ("utility", "batch")
  else if ci = "0x1400" then ("sudo", "sudo")
  else if ci = "0x0400" then ("balances", "transfer")
  else ("unknown", "unknownMethod")

def dTransfer : CallDetails := .mk "0x0400" [("dest", "bob"), ("value", "5")] none none

def dSudoWrap : CallDetails := .mk "0x1400" [] (some dTransfer) none

def dBatch : CallDetails := .mk "0x1802" [] none (some [dTransfer, dSudoWrap, dTransfer])

def dUpgrade : CallDetails := .mk "0x0002" [("code", "0xdeadbeef")] none none

def cTransfer : Call := .mk "balances" "transfer" [.scalar (some "bob"), .scalar (some "5")]

def envT : Env := ⟨regT, "alice", "alice", 100, []⟩

def envBad : Env := ⟨regT, "mallory", "alice", 100, []⟩

def exTransfer : Extrinsic :=
  ⟨"balances.transfer", [.prim "bob", .prim "5"], "0xh1", some ⟨"carol"⟩⟩

def exAttest : Extrinsic := ⟨"claims.claimAttest", [.prim "x"], "0xh2", none⟩

def exUpgrade : Extrinsic :=
  ⟨"sudo.sudoUncheckedWeight", [.details dUpgrade, .prim "1000"], "0xh3", some ⟨"dave"⟩⟩

/-- The proposal the signed path rebuilds for `exTransfer` (the default
`switch` case passes the raw arguments through). -/
def pTransfer : Call := .mk "balances" "transfer" [.raw (.prim "bob"), .raw (.prim "5")]

/-- The trace of the live run over one block holding three signed
transfers with one unsigned `claimAttest` interleaved. -/
def evsRunT : List Event :=
  [.constructed pTransfer, .submittedSigned "carol" pTransfer 100 none,
   .submittedUnsigned "claims" "claimAttest" [.prim "x"],
   .constructed pTransfer, .submittedSigned "carol" pTransfer 101 none,
   .constructed pTransfer, .submittedSigned "carol" pTransfer 102 none]

theorem stepSpec_refl (env : Env) (opts : Options) (s : MState) :
    StepSpec env opts s s [] := by
  refine ⟨by simp, by simp, le_refl _, fun _ => rfl, fun _ => ?_⟩
  simp [signedNonceLog, nonceRange]

theorem signedNonceLog_append (l₁ l₂ : List Event) :
    signedNonceLog (l₁ ++ l₂) = signedNonceLog l₁ ++ signedNonceLog l₂ := by
  induction l₁ with
  | nil => rfl
  | cons e l ih =>
    cases e <;> simp [signedNonceLog, ih]

theorem nonceRange_append (a m n : Nat) :
    nonceRange a m ++ nonceRange (a + m) n = nonceRange a (m + n) := by
  simp only [nonceRange, List.range_add, List.map_append, List.map_map]
  congr 1
  apply List.map_congr_left
  intro i _
  simp
  omega

theorem stepSpec_trans (env : Env) (opts : Options) (s s₁ s₂ : MState)
    (n₁ n₂ : List Event)
    (h₁ : StepSpec env opts s s₁ n₁) (h₂ : StepSpec env opts s₁ s₂ n₂) :
    StepSpec env opts s s₂ (n₁ ++ n₂) := by
  obtain ⟨e₁, w₁, i₁, d₁, f₁⟩ := h₁
  obtain ⟨e₂, w₂, i₂, d₂, f₂⟩ := h₂
  refine ⟨by rw [e₂, e₁, List.append_assoc], ?_, le_trans i₁ i₂, ?_, ?_⟩
  · rw [w₂, w₁, List.any_append]
    cases s.wait <;> cases opts.trickle <;> cases opts.dry <;>
      cases hn₁ : n₁.any isSubmission <;> cases hn₂ : n₂.any isSubmission <;> simp
  · intro hd
    rw [List.any_append, d₁ hd, d₂ hd]
    rfl
  · intro hd
    rw [signedNonceLog_append, f₁ hd, f₂ hd]
    have : env.startingNonce + s₁.index = env.startingNonce + s.index + (s₁.index - s.index) := by
      omega
    rw [this, nonceRange_append]
    congr 1
    omega

/-- A step that appends one non-submission event and leaves `index` and
`wait` alone satisfies the step specification. -/
theorem stepSpec_skip (env : Env) (opts : Options) (s : MState) (ev : Event)
    (hsub : isSubmission ev = false) (hsn : signedNonceLog [ev] = []) :
    StepSpec env opts s { s with events := s.events ++ [ev] } [ev] := by
  refine ⟨rfl, ?_, le_refl _, fun _ => by simp [List.any_cons, hsub], fun _ => ?_⟩
  · simp [List.any_cons, hsub]
  · simp [hsn, nonceRange]


/-- A resolver result embedded into the run-level error type is never the
authorization error. -/
theorem mapError_toMigrate_err {α : Type} (r : Except ResolveError α) (f : α → Call)
    (err : MigrateError)
    (h : ((r.map f).mapError ResolveError.toMigrateError : Except MigrateError Call)
          = .error err) :
    ∀ a b, err ≠ .authError a b := by
  cases r with
  | ok v => simp [Except.map, Except.mapError] at h
  | error re =>
    simp [Except.map, Except.mapError] at h
    intro a b
    cases re <;> rw [← h] <;> simp [ResolveError.toMigrateError]

/-- The construction `constructProposal` fails only with resolver or type errors, never the
authorization error. -/
theorem constructProposal_err (reg : Registry) (m t : String) (args : List ExtArg)
    (err : MigrateError) (h : constructProposal reg m t args = .error err) :
    ∀ a b, err ≠ .authError a b := by
  unfold constructProposal at h
  repeat' split at h
  all_goals intro a b
  all_goals first
    | exact mapError_toMigrate_err _ _ _ h a b
    | (injection h with h; rw [← h]; simp)
    | simp_all

theorem processSigned_ok (env : Env) (opts : Options) (s : MState) (e : Extrinsic)
    (m t : String) (s' : MState)
    (h : processExtrinsic.processSigned env opts s e m t = .ok s') :
    ∃ sig p, e.signature = some sig ∧
      constructProposal env.registry m t e.args = .ok p ∧
      ((opts.dry = false ∧
        s' = ⟨s.index + 1, (if opts.trickle then true else s.wait),
          s.events ++ [.constructed p,
            .submittedSigned sig.signer p (env.startingNonce + s.index) none]⟩) ∨
       (opts.dry = true ∧
        s' = ⟨s.index + 1, s.wait, s.events ++ [.constructed p]⟩)) := by
  unfold processExtrinsic.processSigned at h
  split at h
  · exact absurd h (by simp)
  next sig hsig =>
    split at h
    next err herr => exact absurd h (by simp)
    next p hp =>
      split at h
      next hdry =>
        refine ⟨sig, p, hsig, hp, .inl ⟨hdry, ?_⟩⟩
        simpa using h.symm
      next hdry =>
        refine ⟨sig, p, hsig, hp,
          .inr ⟨by revert hdry; cases opts.dry <;> simp, ?_⟩⟩
        simpa using h.symm

theorem processSigned_err (env : Env) (opts : Options) (s : MState) (e : Extrinsic)
    (m t : String) (r : List Event × MigrateError)
    (h : processExtrinsic.processSigned env opts s e m t = .error r) :
    r.1 = s.events ∧ ∀ a b, r.2 ≠ .authError a b := by
  unfold processExtrinsic.processSigned at h
  split at h
  · obtain rfl : (s.events, MigrateError.typeError) = r := by simpa using h
    exact ⟨rfl, by intro a b; simp⟩
  next sig hsig =>
    split at h
    next err herr =>
      obtain rfl : (s.events, err) = r := by simpa using h
      exact ⟨rfl, fun a b => constructProposal_err _ _ _ _ _ herr a b⟩
    next p hp =>
      split at h <;> exact absurd h (by simp)

theorem upgradeCheck_err (args : List ExtArg) (err : MigrateError)
    (h : upgradeCheck args = .error err) : err = .typeError := by
  unfold upgradeCheck at h
  repeat' split at h
  all_goals first
    | (injection h with h; exact h.symm)
    | simp_all

/-- The signed path, seen through the step specification. -/
theorem processSigned_stepSpec (env : Env) (opts : Options) (s : MState)
    (e : Extrinsic) (m t : String) (s' : MState)
    (h : processExtrinsic.processSigned env opts s e m t = .ok s') :
    ∃ new, StepSpec env opts s s' new ∧ new.any isSlept = false := by
  obtain ⟨sig, p, hsig, hp, hcase⟩ := processSigned_ok _ _ _ _ _ _ _ h
  have hidx : s.index + 1 - s.index = 1 := by omega
  rcases hcase with ⟨hdry, rfl⟩ | ⟨hdry, rfl⟩
  · refine ⟨[.constructed p,
      .submittedSigned sig.signer p (env.startingNonce + s.index) none],
      ⟨rfl, ?_, Nat.le_succ _, ?_, ?_⟩, rfl⟩
    · rw [hdry]
      cases opts.trickle <;> cases s.wait <;> simp [isSubmission]
    · intro hd
      rw [hdry] at hd
      cases hd
    · intro _
      rw [hidx]
      simp [signedNonceLog, nonceRange, List.range_succ]
  · refine ⟨[.constructed p], ⟨rfl, ?_, Nat.le_succ _, fun _ => by simp [isSubmission], ?_⟩, rfl⟩
    · simp [isSubmission]
    · intro hd
      rw [hdry] at hd
      cases hd

theorem processExtrinsic_ok (env : Env) (opts : Options) (s : MState) (e : Extrinsic)
    (s' : MState) (h : processExtrinsic env opts s e = .ok s') :
    ∃ new, StepSpec env opts s s' new ∧ new.any isSlept = false := by
  unfold processExtrinsic at h
  split at h
  · obtain rfl : s' = { s with events := s.events ++ [.skippedIgnored e.method] } := by
      simpa using h.symm
    exact ⟨[.skippedIgnored e.method], stepSpec_skip _ _ _ _ rfl rfl, rfl⟩
  · split at h
    · split at h
      · exact absurd h (by simp)
      · obtain rfl : s' = { s with events := s.events ++ [.skippedUpgrade] } := by
          simpa using h.symm
        exact ⟨[.skippedUpgrade], stepSpec_skip _ _ _ _ rfl rfl, rfl⟩
      · exact processSigned_stepSpec _ _ _ _ _ _ _ h
    · split at h
      · split at h
        next hdry =>
          obtain rfl : s' = { s with
              wait := if opts.trickle then true else s.wait,
              events := s.events ++
                [.submittedUnsigned (splitDot e.method).1 (splitDot e.method).2 e.args] } := by
            simpa using h.symm
          refine ⟨[.submittedUnsigned (splitDot e.method).1 (splitDot e.method).2 e.args],
            ⟨rfl, ?_, le_refl _, ?_, ?_⟩, rfl⟩
          · rw [hdry]
            cases opts.trickle <;> cases s.wait <;> simp [isSubmission]
          · intro hd
            rw [hdry] at hd
            cases hd
          · intro _
            simp [signedNonceLog, nonceRange]
        · obtain rfl : s' = { s with events := s.events ++ [.stubbedUnsigned] } := by
            simpa using h.symm
          exact ⟨[.stubbedUnsigned], stepSpec_skip _ _ _ _ rfl rfl, rfl⟩
      · exact processSigned_stepSpec _ _ _ _ _ _ _ h

theorem processExtrinsic_err (env : Env) (opts : Options) (s : MState) (e : Extrinsic)
    (r : List Event × MigrateError) (h : processExtrinsic env opts s e = .error r) :
    r.1 = s.events ∧ ∀ a b, r.2 ≠ .authError a b := by
  unfold processExtrinsic at h
  split at h
  · exact absurd h (by simp)
  · split at h
    · split at h
      next err herr =>
        obtain rfl : (s.events, err) = r := by simpa using h
        refine ⟨rfl, fun a b => ?_⟩
        rw [upgradeCheck_err _ _ herr]
        simp
      · exact absurd h (by simp)
      · exact processSigned_err _ _ _ _ _ _ _ h
    · split at h
      · split at h <;> exact absurd h (by simp)
      · exact processSigned_err _ _ _ _ _ _ _ h

theorem foldExtrinsics_ok (env : Env) (opts : Options) (l : List Extrinsic)
    (s s₁ : MState) (h : l.foldlM (processExtrinsic env opts) s = .ok s₁) :
    ∃ new, StepSpec env opts s s₁ new ∧ new.any isSlept = false := by
  induction l generalizing s with
  | nil =>
    obtain rfl : s = s₁ := by simpa [List.foldlM_nil, pure, Except.pure] using h
    exact ⟨[], stepSpec_refl _ _ _, rfl⟩
  | cons e rest ih =>
    rw [List.foldlM_cons] at h
    cases hstep : processExtrinsic env opts s e with
    | error r =>
      rw [hstep] at h
      exact absurd h (by simp [Bind.bind, Except.bind])
    | ok s₀ =>
      rw [hstep] at h
      replace h : rest.foldlM (processExtrinsic env opts) s₀ = .ok s₁ := by
        simpa [Bind.bind, Except.bind] using h
      obtain ⟨n₁, sp₁, sl₁⟩ := processExtrinsic_ok _ _ _ _ _ hstep
      obtain ⟨n₂, sp₂, sl₂⟩ := ih _ h
      refine ⟨n₁ ++ n₂, stepSpec_trans _ _ _ _ _ _ _ sp₁ sp₂, ?_⟩
      rw [List.any_append, sl₁, sl₂]
      rfl

theorem foldExtrinsics_err (env : Env) (opts : Options) (l : List Extrinsic)
    (s : MState) (r : List Event × MigrateError)
    (h : l.foldlM (processExtrinsic env opts) s = .error r) :
    ∃ s₀ new, StepSpec env opts s s₀ new ∧ r.1 = s₀.events ∧
      ∀ a b, r.2 ≠ .authError a b := by
  induction l generalizing s with
  | nil => exact absurd h (by simp [List.foldlM_nil, pure, Except.pure])
  | cons e rest ih =>
    rw [List.foldlM_cons] at h
    cases hstep : processExtrinsic env opts s e with
    | error r₀ =>
      rw [hstep] at h
      obtain rfl : r₀ = r := by simpa [Bind.bind, Except.bind] using h
      obtain ⟨h1, h2⟩ := processExtrinsic_err _ _ _ _ _ hstep
      exact ⟨s, [], stepSpec_refl _ _ _, h1, h2⟩
    | ok s₀ =>
      rw [hstep] at h
      replace h : rest.foldlM (processExtrinsic env opts) s₀ = .error r := by
        simpa [Bind.bind, Except.bind] using h
      obtain ⟨n₁, sp₁, _⟩ := processExtrinsic_ok _ _ _ _ _ hstep
      obtain ⟨s₂, n₂, sp₂, hr1, hr2⟩ := ih _ h
      exact ⟨s₂, n₁ ++ n₂, stepSpec_trans _ _ _ _ _ _ _ sp₁ sp₂, hr1, hr2⟩

/-- A whole block through the step specification.  The appended events
contain the end-of-block sleep exactly when the trickle flag is set when
the block's extrinsics are done (`s'.wait`). -/
theorem processBlock_ok (env : Env) (opts : Options) (s : MState) (b : Block)
    (s' : MState) (h : processBlock env opts s b = .ok s') :
    ∃ new, StepSpec env opts s s' new ∧ new.any isSlept = s'.wait := by
  unfold processBlock at h
  cases hfold : b.extrinsics.foldlM (processExtrinsic env opts) s with
  | error r =>
    rw [hfold] at h
    exact absurd h (by simp [Bind.bind, Except.bind])
  | ok s₁ =>
    rw [hfold] at h
    replace h : ((if s₁.wait then
        Except.ok { s₁ with events := s₁.events ++ [Event.sleptBlockTime] }
      else Except.ok s₁) : MigrateM MState) = Except.ok s' := by
      simpa [Bind.bind, Except.bind, pure, Except.pure] using h
    obtain ⟨n₁, sp₁, sl₁⟩ := foldExtrinsics_ok _ _ _ _ _ hfold
    by_cases hw : s₁.wait = true
    · rw [if_pos hw] at h
      obtain rfl : s' = { s₁ with events := s₁.events ++ [Event.sleptBlockTime] } := by
        simpa using h.symm
      refine ⟨n₁ ++ [Event.sleptBlockTime],
        stepSpec_trans _ _ _ _ _ _ _ sp₁ (stepSpec_skip _ _ _ _ rfl rfl), ?_⟩
      rw [List.any_append, sl₁]
      simpa [isSlept] using hw
    · rw [if_neg hw] at h
      obtain rfl : s' = s₁ := by simpa using h.symm
      refine ⟨n₁, sp₁, ?_⟩
      rw [sl₁]
      rw [Bool.not_eq_true] at hw
      exact hw.symm

theorem processBlock_err (env : Env) (opts : Options) (s : MState) (b : Block)
    (r : List Event × MigrateError) (h : processBlock env opts s b = .error r) :
    ∃ s₀ new, StepSpec env opts s s₀ new ∧ r.1 = s₀.events ∧
      ∀ a b, r.2 ≠ .authError a b := by
  unfold processBlock at h
  cases hfold : b.extrinsics.foldlM (processExtrinsic env opts) s with
  | error r₀ =>
    rw [hfold] at h
    obtain rfl : r₀ = r := by simpa [Bind.bind, Except.bind] using h
    exact foldExtrinsics_err _ _ _ _ _ hfold
  | ok s₁ =>
    rw [hfold] at h
    replace h : ((if s₁.wait then
        Except.ok { s₁ with events := s₁.events ++ [Event.sleptBlockTime] }
      else Except.ok s₁) : MigrateM MState) = Except.error r := by
      simpa [Bind.bind, Except.bind, pure, Except.pure] using h
    by_cases hw : s₁.wait = true
    · rw [if_pos hw] at h
      exact absurd h (by simp)
    · rw [if_neg hw] at h
      exact absurd h (by simp)

theorem foldBlocks_ok (env : Env) (opts : Options) (l : List Block)
    (s s₁ : MState) (h : l.foldlM (processBlock env opts) s = .ok s₁) :
    ∃ new, StepSpec env opts s s₁ new := by
  induction l generalizing s with
  | nil =>
    obtain rfl : s = s₁ := by simpa [List.foldlM_nil, pure, Except.pure] using h
    exact ⟨[], stepSpec_refl _ _ _⟩
  | cons b rest ih =>
    rw [List.foldlM_cons] at h
    cases hstep : processBlock env opts s b with
    | error r =>
      rw [hstep] at h
      exact absurd h (by simp [Bind.bind, Except.bind])
    | ok s₀ =>
      rw [hstep] at h
      replace h : rest.foldlM (processBlock env opts) s₀ = .ok s₁ := by
        simpa [Bind.bind, Except.bind] using h
      obtain ⟨n₁, sp₁, _⟩ := processBlock_ok _ _ _ _ _ hstep
      obtain ⟨n₂, sp₂⟩ := ih _ h
      exact ⟨n₁ ++ n₂, stepSpec_trans _ _ _ _ _ _ _ sp₁ sp₂⟩

theorem foldBlocks_err (env : Env) (opts : Options) (l : List Block)
    (s : MState) (r : List Event × MigrateError)
    (h : l.foldlM (processBlock env opts) s = .error r) :
    ∃ s₀ new, StepSpec env opts s s₀ new ∧ r.1 = s₀.events ∧
      ∀ a b, r.2 ≠ .authError a b := by
  induction l generalizing s with
  | nil => exact absurd h (by simp [List.foldlM_nil, pure, Except.pure])
  | cons b rest ih =>
    rw [List.foldlM_cons] at h
    cases hstep : processBlock env opts s b with
    | error r₀ =>
      rw [hstep] at h
      obtain rfl : r₀ = r := by simpa [Bind.bind, Except.bind] using h
      exact processBlock_err _ _ _ _ _ hstep
    | ok s₀ =>
      rw [hstep] at h
      replace h : rest.foldlM (processBlock env opts) s₀ = .error r := by
        simpa [Bind.bind, Except.bind] using h
      obtain ⟨n₁, sp₁, _⟩ := processBlock_ok _ _ _ _ _ hstep
      obtain ⟨s₂, n₂, sp₂, hr1, hr2⟩ := ih _ h
      exact ⟨s₂, n₁ ++ n₂, stepSpec_trans _ _ _ _ _ _ _ sp₁ sp₂, hr1, hr2⟩

theorem completenessLoop_err (blocks : List Block) (count fuel : Nat)
    (err : MigrateError) (h : completenessLoop blocks count fuel = .error err) :
    ∃ m g, err = .gapError m g := by
  induction fuel generalizing count with
  | zero => exact absurd h (by simp [completenessLoop])
  | succ fuel ih =>
    unfold completenessLoop at h
    split at h
    · split at h
      · injection h with h
        exact ⟨_, _, h.symm⟩
      · exact ih _ h
    · exact absurd h (by simp)

theorem migrate_ok (env : Env) (opts : Options) (blocks : List Block) (evs : List Event)
    (h : migrate env opts blocks = .ok evs) :
    ∃ s new, (sortBlocks blocks).foldlM (processBlock env opts) ⟨0, false, []⟩ = .ok s ∧
      evs = s.events ∧ StepSpec env opts ⟨0, false, []⟩ s new := by
  unfold migrate at h
  simp only [Bind.bind, Except.bind, pure, Except.pure, throw, throwThe,
    MonadExceptOf.throw] at h
  split at h
  · split at h
    · exact absurd h (by simp)
    · split at h
      · exact absurd h (by simp)
      · split at h
        · exact absurd h (by simp)
        next v hfold =>
          obtain rfl : evs = v.events := by simpa using h.symm
          obtain ⟨new, sp⟩ := foldBlocks_ok _ _ _ _ _ hfold
          exact ⟨v, new, hfold, rfl, sp⟩
  · split at h
    · exact absurd h (by simp)
    · split at h
      · exact absurd h (by simp)
      next v hfold =>
        obtain rfl : evs = v.events := by simpa using h.symm
        obtain ⟨new, sp⟩ := foldBlocks_ok _ _ _ _ _ hfold
        exact ⟨v, new, hfold, rfl, sp⟩

/-- Every abort of `migrate` happens either before the block loop (with no
events emitted: a completeness gap, or — only in live mode — the
authorization error) or inside it, where the error is never the
authorization error and the emitted events are those of a reachable state. -/
theorem migrate_err (env : Env) (opts : Options) (blocks : List Block)
    (r : List Event × MigrateError) (h : migrate env opts blocks = .error r) :
    (r.1 = [] ∧ ((∃ m g, r.2 = .gapError m g) ∨
      (opts.dry = false ∧ r.2 = .authError env.signerAddress env.sudoKey))) ∨
    (∃ s₀ new, StepSpec env opts ⟨0, false, []⟩ s₀ new ∧ r.1 = s₀.events ∧
      ∀ a b, r.2 ≠ .authError a b) := by
  unfold migrate at h
  simp only [Bind.bind, Except.bind, pure, Except.pure, throw, throwThe,
    MonadExceptOf.throw] at h
  split at h
  · split at h
    next err herr =>
      obtain rfl : ([], err) = r := by simpa using h
      obtain ⟨m, g, hg⟩ := completenessLoop_err _ _ _ _ herr
      exact .inl ⟨rfl, .inl ⟨m, g, hg⟩⟩
    · split at h
      next hgate =>
        obtain rfl : (([] : List Event),
            MigrateError.authError env.signerAddress env.sudoKey) = r := by simpa using h
        exact .inl ⟨rfl, .inr ⟨hgate.1, rfl⟩⟩
      · split at h
        next err herr =>
          obtain rfl : err = r := by simpa using h
          exact .inr (foldBlocks_err _ _ _ _ _ herr)
        · exact absurd h (by simp)
  · split at h
    next hgate =>
      obtain rfl : (([] : List Event),
          MigrateError.authError env.signerAddress env.sudoKey) = r := by simpa using h
      exact .inl ⟨rfl, .inr ⟨hgate.1, rfl⟩⟩
    · split at h
      next err herr =>
        obtain rfl : err = r := by simpa using h
        exact .inr (foldBlocks_err _ _ _ _ _ herr)
      · exact absurd h (by simp)

/-- In dry mode, no run — completed or aborted — ever emits a submission. -/
theorem dry_no_submission (env : Env) (opts : Options) (blocks : List Block)
    (hdry : opts.dry = true) :
    (runEvents (migrate env opts blocks)).any isSubmission = false := by
  cases hres : migrate env opts blocks with
  | ok evs =>
    obtain ⟨s, new, hfold, rfl, sp⟩ := migrate_ok _ _ _ _ hres
    have he : s.events = new := by simpa using sp.1
    simp [runEvents, he, sp.2.2.2.1 hdry]
  | error r =>
    rcases migrate_err _ _ _ _ hres with ⟨h1, _⟩ | ⟨s₀, new, sp, h1, _⟩
    · simp [runEvents, h1]
    · have he : s₀.events = new := by simpa using sp.1
      simp [runEvents, h1, he, sp.2.2.2.1 hdry]

theorem processSigned_sim (env : Env) (opts : Options) (sd sw sw' : MState)
    (e : Extrinsic) (m t : String) (hsim : DrySim sd sw)
    (h : processExtrinsic.processSigned env { opts with dry := false } sw e m t = .ok sw') :
    ∃ sd', processExtrinsic.processSigned env { opts with dry := true } sd e m t = .ok sd' ∧
      DrySim sd' sw' := by
  obtain ⟨sig, p, hsig, hp, hcase⟩ := processSigned_ok _ _ _ _ _ _ _ h
  rcases hcase with ⟨_, rfl⟩ | ⟨hd, _⟩
  · refine ⟨⟨sd.index + 1, sd.wait, sd.events ++ [.constructed p]⟩, ?_, ?_, ?_⟩
    · unfold processExtrinsic.processSigned
      rw [hsig, hp]
      simp
    · simp [DrySim, hsim.1]
    · simp [List.filter_append, hsim.2, isConstructed, List.filter]
  · exact Bool.noConfusion hd

theorem processExtrinsic_sim (env : Env) (opts : Options) (sd sw sw' : MState)
    (e : Extrinsic) (hsim : DrySim sd sw)
    (h : processExtrinsic env { opts with dry := false } sw e = .ok sw') :
    ∃ sd', processExtrinsic env { opts with dry := true } sd e = .ok sd' ∧
      DrySim sd' sw' := by
  unfold processExtrinsic at h ⊢
  by_cases hig : env.ignoreMethods.contains e.method = true
  · rw [if_pos hig] at h ⊢
    obtain rfl : sw' = { sw with events := sw.events ++ [.skippedIgnored e.method] } := by
      simpa using h.symm
    exact ⟨_, rfl, hsim.1,
      by simp [List.filter_append, hsim.2, isConstructed, List.filter]⟩
  · rw [if_neg hig] at h ⊢
    by_cases hsuw : (splitDot e.method).2 = "sudoUncheckedWeight"
    · rw [if_pos hsuw] at h ⊢
      cases hup : upgradeCheck e.args with
      | error err =>
        rw [hup] at h
        exact absurd h (by simp)
      | ok bv =>
        rw [hup] at h
        cases bv
        · exact processSigned_sim _ _ _ _ _ _ _ _ hsim h
        · obtain rfl : sw' = { sw with events := sw.events ++ [.skippedUpgrade] } := by
            simpa using h.symm
          exact ⟨_, rfl, hsim.1,
            by simp [List.filter_append, hsim.2, isConstructed, List.filter]⟩
    · rw [if_neg hsuw] at h ⊢
      by_cases hca : (splitDot e.method).2 = "claimAttest"
      · rw [if_pos hca] at h ⊢
        rw [if_pos (by simp)] at h
        rw [if_neg (by simp)]
        obtain rfl : sw' = { sw with
            wait := if opts.trickle then true else sw.wait,
            events := sw.events ++
              [.submittedUnsigned (splitDot e.method).1 (splitDot e.method).2 e.args] } := by
          simpa using h.symm
        exact ⟨_, rfl, hsim.1,
          by simp [List.filter_append, hsim.2, isConstructed, List.filter]⟩
      · rw [if_neg hca] at h ⊢
        exact processSigned_sim _ _ _ _ _ _ _ _ hsim h

theorem foldExtrinsics_sim (env : Env) (opts : Options) (l : List Extrinsic)
    (sd sw sw₁ : MState) (hsim : DrySim sd sw)
    (h : l.foldlM (processExtrinsic env { opts with dry := false }) sw = .ok sw₁) :
    ∃ sd₁, l.foldlM (processExtrinsic env { opts with dry := true }) sd = .ok sd₁ ∧
      DrySim sd₁ sw₁ := by
  induction l generalizing sd sw with
  | nil =>
    obtain rfl : sw = sw₁ := by simpa [List.foldlM_nil, pure, Except.pure] using h
    exact ⟨sd, by simp [List.foldlM_nil, pure, Except.pure], hsim⟩
  | cons e rest ih =>
    rw [List.foldlM_cons] at h
    cases hstep : processExtrinsic env { opts with dry := false } sw e with
    | error r =>
      rw [hstep] at h
      exact absurd h (by simp [Bind.bind, Except.bind])
    | ok sw₀ =>
      rw [hstep] at h
      replace h : rest.foldlM (processExtrinsic env { opts with dry := false }) sw₀ = .ok sw₁ := by
        simpa [Bind.bind, Except.bind] using h
      obtain ⟨sd₀, hdstep, hsim₀⟩ := processExtrinsic_sim _ _ _ _ _ _ hsim hstep
      obtain ⟨sd₁, hdrest, hsim₁⟩ := ih _ _ hsim₀ h
      refine ⟨sd₁, ?_, hsim₁⟩
      rw [List.foldlM_cons, hdstep]
      simpa [Bind.bind, Except.bind] using hdrest

theorem processBlock_sim (env : Env) (opts : Options) (sd sw sw' : MState)
    (b : Block) (hsim : DrySim sd sw)
    (h : processBlock env { opts with dry := false } sw b = .ok sw') :
    ∃ sd', processBlock env { opts with dry := true } sd b = .ok sd' ∧
      DrySim sd' sw' := by
  unfold processBlock at h ⊢
  cases hfold : b.extrinsics.foldlM (processExtrinsic env { opts with dry := false }) sw with
  | error r =>
    rw [hfold] at h
    exact absurd h (by simp [Bind.bind, Except.bind])
  | ok sw₁ =>
    rw [hfold] at h
    replace h : ((if sw₁.wait then
        Except.ok { sw₁ with events := sw₁.events ++ [Event.sleptBlockTime] }
      else Except.ok sw₁) : MigrateM MState) = Except.ok sw' := by
      simpa [Bind.bind, Except.bind, pure, Except.pure] using h
    obtain ⟨sd₁, hdfold, hsim₁⟩ := foldExtrinsics_sim _ _ _ _ _ _ hsim hfold
    rw [hdfold]
    have hwet : sw'.events.filter isConstructed = sw₁.events.filter isConstructed ∧
        sw'.index = sw₁.index := by
      by_cases hw : sw₁.wait = true
      · rw [if_pos hw] at h
        obtain rfl : sw' = { sw₁ with events := sw₁.events ++ [Event.sleptBlockTime] } := by
          simpa using h.symm
        exact ⟨by simp [List.filter_append, isConstructed, List.filter], rfl⟩
      · rw [if_neg hw] at h
        obtain rfl : sw' = sw₁ := by simpa using h.symm
        exact ⟨rfl, rfl⟩
    by_cases hdw : sd₁.wait = true
    · refine ⟨{ sd₁ with events := sd₁.events ++ [Event.sleptBlockTime] },
        by simp [Bind.bind, Except.bind, pure, Except.pure, hdw], ?_, ?_⟩
      · rw [hwet.2]
        exact hsim₁.1
      · rw [hwet.1]
        simp [List.filter_append, isConstructed, List.filter, hsim₁.2]
    · refine ⟨sd₁, by simp [Bind.bind, Except.bind, pure, Except.pure, hdw], ?_, ?_⟩
      · rw [hwet.2]
        exact hsim₁.1
      · rw [hwet.1]
        exact hsim₁.2

theorem foldBlocks_sim (env : Env) (opts : Options) (l : List Block)
    (sd sw sw₁ : MState) (hsim : DrySim sd sw)
    (h : l.foldlM (processBlock env { opts with dry := false }) sw = .ok sw₁) :
    ∃ sd₁, l.foldlM (processBlock env { opts with dry := true }) sd = .ok sd₁ ∧
      DrySim sd₁ sw₁ := by
  induction l generalizing sd sw with
  | nil =>
    obtain rfl : sw = sw₁ := by simpa [List.foldlM_nil, pure, Except.pure] using h
    exact ⟨sd, by simp [List.foldlM_nil, pure, Except.pure], hsim⟩
  | cons b rest ih =>
    rw [List.foldlM_cons] at h
    cases hstep : processBlock env { opts with dry := false } sw b with
    | error r =>
      rw [hstep] at h
      exact absurd h (by simp [Bind.bind, Except.bind])
    | ok sw₀ =>
      rw [hstep] at h
      replace h : rest.foldlM (processBlock env { opts with dry := false }) sw₀ = .ok sw₁ := by
        simpa [Bind.bind, Except.bind] using h
      obtain ⟨sd₀, hdstep, hsim₀⟩ := processBlock_sim _ _ _ _ _ _ hsim hstep
      obtain ⟨sd₁, hdrest, hsim₁⟩ := ih _ _ hsim₀ h
      refine ⟨sd₁, ?_, hsim₁⟩
      rw [List.foldlM_cons, hdstep]
      simpa [Bind.bind, Except.bind] using hdrest

/-- A successful live run is matched by a dry run on the same inputs with
exactly the same constructed proposals. -/
theorem migrate_sim (env : Env) (opts : Options) (blocks : List Block) (evs : List Event)
    (h : migrate env { opts with dry := false } blocks = .ok evs) :
    ∃ evsD, migrate env { opts with dry := true } blocks = .ok evsD ∧
      evsD.filter isConstructed = evs.filter isConstructed := by
  unfold migrate at h ⊢
  simp only [Bind.bind, Except.bind, pure, Except.pure, throw, throwThe,
    MonadExceptOf.throw] at h ⊢
  split at h
  next hec =>
    rw [if_pos (by simpa using hec)]
    split at h
    · exact absurd h (by simp)
    next hcomp =>
      split at h
      next hgate => exact absurd h (by simp)
      next hgate =>
        rw [if_neg (by simp)]
        split at h
        · exact absurd h (by simp)
        next v hfold =>
          obtain rfl : evs = v.events := by simpa using h.symm
          obtain ⟨sd₁, hdfold, hsim⟩ :=
            foldBlocks_sim env opts _ ⟨0, false, []⟩ ⟨0, false, []⟩ _ ⟨rfl, rfl⟩ hfold
          rw [hdfold]
          exact ⟨sd₁.events, rfl, hsim.2⟩
  next hec =>
    rw [if_neg (by simpa using hec)]
    split at h
    next hgate => exact absurd h (by simp)
    next hgate =>
      rw [if_neg (by simp)]
      split at h
      · exact absurd h (by simp)
      next v hfold =>
        obtain rfl : evs = v.events := by simpa using h.symm
        obtain ⟨sd₁, hdfold, hsim⟩ :=
          foldBlocks_sim env opts _ ⟨0, false, []⟩ ⟨0, false, []⟩ _ ⟨rfl, rfl⟩ hfold
        rw [hdfold]
        exact ⟨sd₁.events, rfl, hsim.2⟩

theorem nonceRange_length (a n : Nat) : (nonceRange a n).length = n := by
  simp [nonceRange]

theorem isAuthErrorResult_error (r : List Event × MigrateError)
    (h : ∀ a b, r.2 ≠ .authError a b) : isAuthErrorResult (Except.error r) = false := by
  obtain ⟨r1, r2⟩ := r
  cases r2 with
  | authError a b => exact absurd rfl (h a b)
  | gapError m g => rfl
  | unknownCall s m => rfl
  | typeError => rfl

/-- The one-step unfolding of `createCall` (the mutual recursion's own
equations are too large for the elaborator, but the unfolding holds by
definitional reduction once the nested `Option` fields are cased). -/
theorem createCall_mk (reg : Registry) (ci : String) (sc : List (String × String))
    (c : Option CallDetails) (cls : Option (List CallDetails)) :
    createCall reg (.mk ci sc c cls) =
      createCallDispatch (reg ci).1 (reg ci).2 sc
        (match c with | some n => some (createCall reg n) | none => none)
        (match cls with | some ds => some (createCalls reg ds) | none => none) := by
  cases c <;> cases cls <;> rfl

/-- The one-step unfolding of `createCallF` at positive fuel. -/
theorem createCallF_mk (reg : Registry) (fuel : Nat) (ci : String)
    (sc : List (String × String)) (c : Option CallDetails)
    (cls : Option (List CallDetails)) :
    createCallF reg (fuel + 1) (.mk ci sc c cls) =
      createCallDispatchF (reg ci).1 (reg ci).2 sc
        (match c with | some n => some (createCallF reg fuel n) | none => none)
        (match cls with | some ds => some (createCallsF reg fuel ds) | none => none) := by
  cases c <;> cases cls <;> rfl

/-- When no nested resolution ran out of fuel, the fuel-indexed dispatch
agrees with the plain one. -/
theorem createCallDispatchF_some (sect method : String) (sc : List (String × String))
    (nc : Option (Except ResolveError Call))
    (ncs : Option (Except ResolveError (List Call))) :
    createCallDispatchF sect method sc (nc.map some) (ncs.map some) =
      some (createCallDispatch sect method sc nc ncs) := by
  unfold createCallDispatchF createCallDispatch
  by_cases h1 : method = "killStorage"
  · rw [if_pos h1, if_pos h1]
  · rw [if_neg h1, if_neg h1]
    by_cases h2 : method = "setStorage"
    · rw [if_pos h2, if_pos h2]
    · rw [if_neg h2, if_neg h2]
      by_cases h3 : method = "bond"
      · rw [if_pos h3, if_pos h3]
      · rw [if_neg h3, if_neg h3]
        by_cases h4 : method = "nominate"
        · rw [if_pos h4, if_pos h4]
        · rw [if_neg h4, if_neg h4]
          by_cases h5 : method = "setController"
          · rw [if_pos h5, if_pos h5]
          · rw [if_neg h5, if_neg h5]
            by_cases h6 : method = "setKeys"
            · rw [if_pos h6, if_pos h6]
            · rw [if_neg h6, if_neg h6]
              by_cases h7 : method = "validate"
              · rw [if_pos h7, if_pos h7]
              · rw [if_neg h7, if_neg h7]
                by_cases h8 : method = "forceTransfer"
                · rw [if_pos h8, if_pos h8]
                · rw [if_neg h8, if_neg h8]
                  by_cases h9 : method = "transfer"
                  · rw [if_pos h9, if_pos h9]
                  · rw [if_neg h9, if_neg h9]
                    by_cases h10 : method = "proxy"
                    · rw [if_pos h10, if_pos h10]
                      cases nc <;> rfl
                    · rw [if_neg h10, if_neg h10]
                      by_cases h11 : method = "sudo"
                      · rw [if_pos h11, if_pos h11]
                        cases nc <;> rfl
                      · rw [if_neg h11, if_neg h11]
                        by_cases h12 : method = "batch"
                        · rw [if_pos h12, if_pos h12]
                          cases ncs <;> rfl
                        · rw [if_neg h12, if_neg h12]
                          by_cases h13 : method = "anonymous"
                          · rw [if_pos h13, if_pos h13]
                          · rw [if_neg h13, if_neg h13]

/-- The `batch` arm of `createCall`: map the resolver over the nested
descriptors. -/
theorem createCall_batch (reg : Registry) (ci : String) (sc : List (String × String))
    (c : Option CallDetails) (ds : List CallDetails) (hm : (reg ci).2 = "batch") :
    createCall reg (.mk ci sc c (some ds)) =
      (createCalls reg ds).map (fun cs => Call.mk (reg ci).1 "batch" [.callList cs]) := by
  rw [createCall_mk]
  unfold createCallDispatch
  rw [hm]
  simp

/-- A successful `createCalls` run resolves each nested descriptor, in
order. -/
theorem createCalls_ok (reg : Registry) (ds : List CallDetails) (cs : List Call)
    (h : createCalls reg ds = .ok cs) :
    cs.length = ds.length ∧
    ∀ i (h1 : i < ds.length) (h2 : i < cs.length),
      createCall reg (ds.get ⟨i, h1⟩) = .ok (cs.get ⟨i, h2⟩) := by
  induction ds generalizing cs with
  | nil =>
    obtain rfl : cs = [] := by
      have h' : (Except.ok [] : Except ResolveError (List Call)) = .ok cs := by
        simpa [createCalls] using h
      simpa using h'.symm
    exact ⟨rfl, fun i h1 h2 => absurd h1 (by simp)⟩
  | cons d rest ih =>
    unfold createCalls at h
    cases hc : createCall reg d with
    | error e =>
      rw [hc] at h
      exact absurd h (by simp [Bind.bind, Except.bind])
    | ok c =>
      rw [hc] at h
      cases hcs : createCalls reg rest with
      | error e =>
        rw [hcs] at h
        exact absurd h (by simp [Bind.bind, Except.bind])
      | ok cs' =>
        rw [hcs] at h
        obtain rfl : c :: cs' = cs := by simpa [Bind.bind, Except.bind] using h
        obtain ⟨hl, hp⟩ := ih _ hcs
        refine ⟨by simp [hl], ?_⟩
        intro i h1 h2
        cases i with
        | zero => simpa using hc
        | succ j =>
          have hj1 : j < rest.length := by simpa using h1
          have hj2 : j < cs'.length := by simpa using h2
          simpa using hp j hj1 hj2

/-- The unguarded recursion of `createCall` terminates on every finite
descriptor: fuel equal to the descriptor's size is enough for the
fuel-indexed resolver to deliver `createCall`'s answer. -/
theorem createCallF_sound (reg : Registry) : ∀ fuel : Nat,
    (∀ d : CallDetails, sizeOf d ≤ fuel →
      createCallF reg fuel d = some (createCall reg d)) ∧
    (∀ ds : List CallDetails, sizeOf ds ≤ fuel →
      createCallsF reg fuel ds = some (createCalls reg ds)) := by
  intro fuel
  induction fuel with
  | zero =>
    constructor
    · intro d hd
      exfalso
      obtain ⟨ci, sc, c, cls⟩ := d
      simp at hd
    · intro ds hds
      exfalso
      cases ds <;> simp at hds
  | succ fuel ih =>
    have hA : ∀ d : CallDetails, sizeOf d ≤ fuel + 1 →
        createCallF reg (fuel + 1) d = some (createCall reg d) := by
      intro d hd
      obtain ⟨ci, sc, c, cls⟩ := d
      rw [createCallF_mk, createCall_mk]
      cases c with
      | none =>
        cases cls with
        | none => exact createCallDispatchF_some _ _ _ none none
        | some ds =>
          have hds : sizeOf ds ≤ fuel := by simp at hd; omega
          show createCallDispatchF (reg ci).1 (reg ci).2 sc none
              (some (createCallsF reg fuel ds)) =
            some (createCallDispatch (reg ci).1 (reg ci).2 sc none
              (some (createCalls reg ds)))
          rw [ih.2 ds hds]
          exact createCallDispatchF_some _ _ _ none (some (createCalls reg ds))
      | some n =>
        have hn : sizeOf n ≤ fuel := by simp at hd; omega
        cases cls with
        | none =>
          show createCallDispatchF (reg ci).1 (reg ci).2 sc
              (some (createCallF reg fuel n)) none =
            some (createCallDispatch (reg ci).1 (reg ci).2 sc
              (some (createCall reg n)) none)
          rw [ih.1 n hn]
          exact createCallDispatchF_some _ _ _ (some (createCall reg n)) none
        | some ds =>
          have hds : sizeOf ds ≤ fuel := by simp at hd; omega
          show createCallDispatchF (reg ci).1 (reg ci).2 sc
              (some (createCallF reg fuel n)) (some (createCallsF reg fuel ds)) =
            some (createCallDispatch (reg ci).1 (reg ci).2 sc
              (some (createCall reg n)) (some (createCalls reg ds)))
          rw [ih.1 n hn, ih.2 ds hds]
          exact createCallDispatchF_some _ _ _ (some (createCall reg n))
            (some (createCalls reg ds))
    refine ⟨hA, ?_⟩
    intro ds hds
    induction ds with
    | nil => rfl
    | cons d rest ihl =>
      have hd : sizeOf d ≤ fuel + 1 := by simp at hds; omega
      have hrest : sizeOf rest ≤ fuel + 1 := by simp at hds; omega
      have hcons : createCallsF reg (fuel + 1) (d :: rest) =
          match createCallF reg (fuel + 1) d with
          | none => none
          | some (.error e) => some (.error e)
          | some (.ok c) =>
            match createCallsF reg (fuel + 1) rest with
            | none => none
            | some (.error e) => some (.error e)
            | some (.ok cs) => some (.ok (c :: cs)) := rfl
      rw [hcons, hA d hd, ihl hrest]
      cases hc : createCall reg d with
      | error e =>
        have : createCalls reg (d :: rest) = .error e := by
          unfold createCalls
          rw [hc]
          rfl
        rw [this]
      | ok c =>
        cases hcs : createCalls reg rest with
        | error e =>
          have : createCalls reg (d :: rest) = .error e := by
            unfold createCalls
            rw [hc, hcs]
            rfl
          rw [this]
        | ok cs =>
          have : createCalls reg (d :: rest) = .ok (c :: cs) := by
            unfold createCalls
            rw [hc, hcs]
            rfl
          rw [this]

/-! ## The claims -/

/-- Claim C1.  The claim states that with completeness checking enabled,
validation succeeds exactly when the sorted block numbers form the
contiguous run `1..N`, failing with a gap error citing the first missing
number — in particular `[1,2,4]` must fail citing `3`.  The code's
`while (count < blocks.length)` loop checks `blocks[count-1]` only for
`count < length`, so the last sorted block's number is never examined:
validation ACCEPTS `[1,2,4]` and the whole run proceeds.  `[1,2,3]` passes
as claimed, and `[1,2,4,5]` fails citing `3` (with `GOT` reading the block
after the mismatch), confirming the intended mechanism on interior
blocks. -/
theorem C1_completeness_last_block_unchecked :
    completenessCheck [⟨1, []⟩, ⟨2, []⟩, ⟨4, []⟩] = .ok () ∧
    completenessCheck [⟨1, []⟩, ⟨2, []⟩, ⟨3, []⟩] = .ok () ∧
    completenessCheck [⟨1, []⟩, ⟨2, []⟩, ⟨4, []⟩, ⟨5, []⟩] = .error (.gapError 3 5) ∧
    migrate envT ⟨false, true, false⟩ [⟨1, []⟩, ⟨2, []⟩, ⟨4, []⟩] = .ok [] :=
  ⟨rfl, rfl, rfl, rfl⟩

/-- Claim C2.  The claim states every signed transaction is submitted with
the explicit nonce `startingNonce + signedTxCounter` passed to the
submission call.  The code computes that nonce but uses it only in the log
string: `signAndSend(mySigner, callback)` is called with no options object,
so no nonce is passed and the network client falls back to its own nonce
handling.  On a run with one signed transaction, the recorded submission
carries `loggedNonce = 100` but `explicitNonce = none`. -/
theorem C2_no_explicit_nonce :
    migrate envT ⟨false, false, false⟩ [⟨1, [exTransfer]⟩] =
      .ok [.constructed pTransfer, .submittedSigned "carol" pTransfer 100 none] ∧
    submissionsUseExplicitNonce
      (runEvents (migrate envT ⟨false, false, false⟩ [⟨1, [exTransfer]⟩])) = false :=
  ⟨rfl, rfl⟩

/-- Claim C3, counterexample.  The claim (delay after a block iff a
submission occurred in that same block) fails: after a first block whose
signed submission set the trickle flag, the empty second block still takes
the delay, because the flag is never reset.  The state reached after the
first block is exhibited, and the claimed per-block property is refuted on
the (empty) second block from that state. -/
theorem C3_delay_without_submission_cex :
    processBlock envT ⟨false, false, true⟩ ⟨0, false, []⟩ ⟨1, [exTransfer]⟩ =
      .ok ⟨1, true, [.constructed pTransfer,
        .submittedSigned "carol" pTransfer 100 none, .sleptBlockTime]⟩ ∧
    ¬ delayIffSubmissionThisBlock envT ⟨false, false, true⟩
      ⟨1, true, [.constructed pTransfer,
        .submittedSigned "carol" pTransfer 100 none, .sleptBlockTime]⟩ ⟨2, []⟩ := by
  refine ⟨rfl, fun hcl => ?_⟩
  have h2 := hcl ⟨1, true, [.constructed pTransfer,
    .submittedSigned "carol" pTransfer 100 none, .sleptBlockTime, .sleptBlockTime]⟩ rfl
  revert h2
  decide

/-- Claim C3 (amended).  The fixed block-time delay after a block occurs
iff the wait flag is set when the block's transactions are done; the flag
is set by a submission in live trickle mode and is NEVER reset,so the
delay occurs iff trickle is enabled, dry mode is off, and a submission
occurred in that block OR the flag was already set by an earlier block.
After a block with no submission the delay is still taken whenever the
flag was set earlier. -/
theorem C3_trickle_delay_amended (env : Env) (opts : Options) (s : MState)
    (b : Block) (s' : MState) (h : processBlock env opts s b = .ok s') :
    ∃ new, s'.events = s.events ++ new ∧
      new.any isSlept = (s.wait || (opts.trickle && !opts.dry && new.any isSubmission)) ∧
      s'.wait = (s.wait || (opts.trickle && !opts.dry && new.any isSubmission)) := by
  obtain ⟨new, sp, hs⟩ := processBlock_ok _ _ _ _ _ h
  exact ⟨new, sp.1, by rw [hs, sp.2.1], sp.2.1⟩

theorem C3_trickle_delay_amended_witness :
    ∃ new, ([Event.constructed pTransfer,
        Event.submittedSigned "carol" pTransfer 100 none,
        Event.sleptBlockTime] : List Event) = [] ++ new ∧
      new.any isSlept = (false || (true && !false && new.any isSubmission)) ∧
      true = (false || (true && !false && new.any isSubmission)) :=
  C3_trickle_delay_amended envT ⟨false, false, true⟩ ⟨0, false, []⟩ ⟨1, [exTransfer]⟩
    ⟨1, true, [.constructed pTransfer, .submittedSigned "carol" pTransfer 100 none,
      .sleptBlockTime]⟩ rfl

/-- Claim C4.  If the derived signer's address differs from the queried
sudo key and dry mode is off, the run aborts with the authorization error
having emitted no events at all (so before any submission); the check runs
after the completeness validation, so the theorem assumes that validation
passes (or is disabled).  With dry mode on, the same mismatch never
produces the authorization error. -/
theorem C4_authorization_gate (env : Env) (opts : Options) (blocks : List Block)
    (hne : env.signerAddress ≠ env.sudoKey) :
    (opts.dry = false →
      (opts.ensureComplete = true → completenessCheck (sortBlocks blocks) = .ok ()) →
      migrate env opts blocks = .error ([], .authError env.signerAddress env.sudoKey)) ∧
    (opts.dry = true → isAuthErrorResult (migrate env opts blocks) = false) := by
  constructor
  · intro hdry hcomp
    unfold migrate
    simp only [Bind.bind, Except.bind, pure, Except.pure, throw, throwThe,
      MonadExceptOf.throw]
    by_cases hec : opts.ensureComplete = true
    · rw [if_pos hec, hcomp hec, if_pos ⟨hdry, hne⟩]
    · rw [if_neg hec, if_pos ⟨hdry, hne⟩]
  · intro hdry
    cases hres : migrate env opts blocks with
    | ok evs => rfl
    | error r =>
      rcases migrate_err _ _ _ _ hres with ⟨h1, hcase⟩ | ⟨s₀, new, _, _, hna⟩
      · rcases hcase with ⟨m, g, hg⟩ | ⟨hdf, _⟩
        · exact isAuthErrorResult_error r
            (fun a b hc => MigrateError.noConfusion ((hg ▸ hc : MigrateError.gapError m g = _)))
        · rw [hdf] at hdry
          cases hdry
      · exact isAuthErrorResult_error r hna

theorem C4_authorization_gate_witness :
    migrate envBad ⟨false, false, false⟩ [⟨1, [exTransfer]⟩] =
      .error ([], .authError "mallory" "alice") ∧
    isAuthErrorResult (migrate envBad ⟨true, false, false⟩ [⟨1, [exTransfer]⟩]) = false :=
  ⟨(C4_authorization_gate envBad ⟨false, false, false⟩ [⟨1, [exTransfer]⟩]
      (by decide)).1 rfl (fun hc => Bool.noConfusion hc),
   (C4_authorization_gate envBad ⟨true, false, false⟩ [⟨1, [exTransfer]⟩]
      (by decide)).2 rfl⟩

/-- Claim C5.  In a live (non-dry) run, the signed-transaction counter is
incremented exactly once per signed-path transaction and never for
unsigned or skipped ones, so the logged nonces of the signed submissions,
in submission order, are exactly the consecutive run
`startingNonce, startingNonce+1, ...`. -/
theorem C5_nonce_sequence (env : Env) (opts : Options) (blocks : List Block)
    (evs : List Event) (hdry : opts.dry = false)
    (h : migrate env opts blocks = .ok evs) :
    signedNonceLog evs = nonceRange env.startingNonce (signedNonceLog evs).length := by
  obtain ⟨s, new, hfold, rfl, sp⟩ := migrate_ok _ _ _ _ h
  have he : s.events = new := by simpa using sp.1
  have hn := sp.2.2.2.2 hdry
  rw [he, hn, nonceRange_length]
  simp

theorem C5_nonce_sequence_witness :
    signedNonceLog evsRunT = nonceRange 100 (signedNonceLog evsRunT).length ∧
    signedNonceLog evsRunT = [100, 101, 102] :=
  ⟨C5_nonce_sequence envT ⟨false, false, false⟩ [⟨1, [exTransfer, exAttest,
      exTransfer, exTransfer]⟩] evsRunT rfl rfl, rfl⟩

/-- Claim C6.  A transaction whose `txType` is `sudoUncheckedWeight` and
whose first argument is a descriptor carrying a (truthy) `code` field is
skipped entirely: the state is unchanged except for one skip log event —
no proposal is constructed, no submission happens, and the nonce counter
does not move.  (If the method is also on the ignore list, the earlier
ignore-skip fires instead, with the same absence of effects.) -/
theorem C6_runtime_upgrade_skip (env : Env) (opts : Options) (s : MState)
    (e : Extrinsic) (d : CallDetails)
    (ht : (splitDot e.method).2 = "sudoUncheckedWeight")
    (ha : e.args.head? = some (.details d))
    (hc : hasCode d = true) :
    processExtrinsic env opts s e = .ok { s with events := s.events ++
      [if env.ignoreMethods.contains e.method then Event.skippedIgnored e.method
       else Event.skippedUpgrade] } := by
  have hup : upgradeCheck e.args = .ok true := by
    unfold upgradeCheck
    rw [ha]
    simp [hc]
  unfold processExtrinsic
  by_cases hig : env.ignoreMethods.contains e.method = true
  · rw [if_pos hig, if_pos hig]
  · rw [if_neg hig, if_neg hig, if_pos ht, hup]

theorem C6_runtime_upgrade_skip_witness :
    processExtrinsic envT ⟨false, false, false⟩ ⟨0, false, []⟩ exUpgrade =
      .ok ⟨0, false, [Event.skippedUpgrade]⟩ := by
  have h := C6_runtime_upgrade_skip envT ⟨false, false, false⟩ ⟨0, false, []⟩
    exUpgrade dUpgrade rfl rfl rfl
  simpa using h

/-- Claim C7.  Whenever the method name resolved from a descriptor's call
index is outside the resolver's fixed set of supported methods, resolution
fails with the unknown-call error and constructs no call. -/
theorem C7_unknown_method_fatal (reg : Registry) (d : CallDetails)
    (h : (reg d.callIndex).2 ∉ supportedMethods) :
    createCall reg d = .error (.unknownCall (reg d.callIndex).1 (reg d.callIndex).2) := by
  obtain ⟨ci, sc, c, cls⟩ := d
  simp only [CallDetails.callIndex] at h ⊢
  simp only [supportedMethods, List.mem_cons, List.not_mem_nil, or_false, not_or] at h
  obtain ⟨h1, h2, h3, h4, h5, h6, h7, h8, h9, h10, h11, h12, h13⟩ := h
  rw [createCall_mk]
  unfold createCallDispatch
  simp [h1, h2, h3, h4, h5, h6, h7, h8, h9, h10, h11, h12, h13]

theorem C7_unknown_method_fatal_witness :
    createCall regT (.mk "0xff" [] none none) =
      .error (.unknownCall "unknown" "unknownMethod") :=
  C7_unknown_method_fatal regT (.mk "0xff" [] none none) (by decide)

/-- Claim C8.  Resolving a `batch` descriptor whose `args.calls` holds `n`
nested descriptors, all of which resolve, yields a single batch call whose
sub-call list is exactly the in-order resolutions of those descriptors. -/
theorem C8_batch_resolution (reg : Registry) (d : CallDetails)
    (ds : List CallDetails) (cs : List Call)
    (hm : (reg d.callIndex).2 = "batch") (hds : d.calls = some ds)
    (h : createCalls reg ds = .ok cs) :
    createCall reg d = .ok (.mk (reg d.callIndex).1 "batch" [.callList cs]) ∧
    cs.length = ds.length ∧
    ∀ i (h1 : i < ds.length) (h2 : i < cs.length),
      createCall reg (ds.get ⟨i, h1⟩) = .ok (cs.get ⟨i, h2⟩) := by
  obtain ⟨ci, sc, c, cls⟩ := d
  simp only [CallDetails.calls] at hds
  subst hds
  simp only [CallDetails.callIndex] at hm ⊢
  refine ⟨?_, createCalls_ok reg ds cs h⟩
  rw [createCall_batch reg ci sc c ds hm, h]
  rfl

theorem C8_batch_resolution_witness :
    createCall regT dBatch = .ok (.mk "utility" "batch"
      [.callList [cTransfer, .mk "sudo" "sudo" [.call cTransfer], cTransfer]]) :=
  (C8_batch_resolution regT dBatch [dTransfer, dSudoWrap, dTransfer]
    [cTransfer, .mk "sudo" "sudo" [.call cTransfer], cTransfer]
    rfl rfl rfl).1

/-- Claim C9.  With dry mode on, a run — completed or aborted — emits no
network submission, signed or unsigned; and every successful live run is
matched by the dry run on the same inputs constructing exactly the same
proposals (so resolvability is still exercised). -/
theorem C9_dry_mode_no_submission (env : Env) (opts : Options) (blocks : List Block) :
    ((runEvents (migrate env { opts with dry := true } blocks)).any isSubmission
      = false) ∧
    (∀ evs, migrate env { opts with dry := false } blocks = .ok evs →
      ∃ evsD, migrate env { opts with dry := true } blocks = .ok evsD ∧
        evsD.filter isConstructed = evs.filter isConstructed) :=
  ⟨dry_no_submission env _ blocks rfl, fun evs h => migrate_sim env opts blocks evs h⟩

theorem C9_dry_mode_no_submission_witness :
    ((runEvents (migrate envT ⟨true, false, false⟩
        [⟨1, [exTransfer, exAttest]⟩])).any isSubmission = false) ∧
    ∃ evsD, migrate envT ⟨true, false, false⟩ [⟨1, [exTransfer, exAttest]⟩] = .ok evsD ∧
      evsD.filter isConstructed =
        ([.constructed pTransfer, .submittedSigned "carol" pTransfer 100 none,
          .submittedUnsigned "claims" "claimAttest" [.prim "x"]] : List Event).filter
          isConstructed :=
  ⟨(C9_dry_mode_no_submission envT ⟨false, false, false⟩
      [⟨1, [exTransfer, exAttest]⟩]).1,
   (C9_dry_mode_no_submission envT ⟨false, false, false⟩
      [⟨1, [exTransfer, exAttest]⟩]).2
     [.constructed pTransfer, .submittedSigned "carol" pTransfer 100 none,
      .submittedUnsigned "claims" "claimAttest" [.prim "x"]] rfl⟩

/-- Claim C10.  `createCall` recurses only structurally into nested
descriptors, with no depth or visited-set guard; on every finite, acyclic
descriptor the recursion terminates, and fuel equal to the descriptor's
size already suffices for the fuel-indexed rendition of the recursion to
deliver `createCall`'s answer. -/
theorem C10_createCall_terminates_on_finite_input (reg : Registry) (fuel : Nat)
    (d : CallDetails) (h : sizeOf d ≤ fuel) :
    createCallF reg fuel d = some (createCall reg d) :=
  (createCallF_sound reg fuel).1 d h

theorem C10_createCall_terminates_witness :
    sizeOf dBatch ≤ 100000 ∧
    createCallF regT 100000 dBatch = some (createCall regT dBatch) :=
  ⟨by decide, C10_createCall_terminates_on_finite_input regT 100000 dBatch (by decide)⟩

end Injection
